import Mathlib

/-!
Shallow embedding of the `bloomset` crate (`src/lib.rs`).

`BloomSet<T>` is a Vec-shaped set `{ ptr, length, capacity }` whose `length`
and `capacity` machine words each pack a 48-bit numeric value in their low
bits and a 16-bit bloom-filter fragment in their high bits (bytes 6 and 7 of
the little-endian representation).  Machine words are modelled as `Nat`
kept below `2 ^ 64`; `usize` arithmetic that can wrap is written with an
explicit `% 2 ^ 64`.  The heap buffer behind `ptr` is modelled by the list
of its initialised slots; `as_slice()` is the first `len()` of them.
-/

namespace Bloomset

/-- The mask `0x0000_FFFF_FFFF_FFFF` selecting the low 48 bits of a word. -/
def MASK48 : Nat := 0x0000FFFFFFFFFFFF

/-- The mask `0xFFFF_0000_0000_0000` selecting the high 16 bits of a word. -/
def HIMASK : Nat := 0xFFFF000000000000

/-- Bytes 6 and 7 of the little-endian representation of a machine word,
read as a `u16`: `u16::from_le_bytes([bits[6], bits[7]])`. -/
def hi16 (w : Nat) : Nat := w / 2 ^ 48 % 65536

/-- Replace bytes 6 and 7 of the little-endian representation of `w` by the
`u16` value `c`, as in `bits[6] = c.to_le_bytes()[0]; bits[7] = c.to_le_bytes()[1];
usize::from_le_bytes(bits)`. -/
def setHi16 (w c : Nat) : Nat := w % 2 ^ 48 + c % 65536 * 2 ^ 48

/-- The struct `BloomSet<T> { ptr, length, capacity }`.  `data` models the
contents of the heap buffer behind `ptr` (its initialised prefix); `length`
and `capacity` are the two metadata words. -/
structure BloomSet (T : Type) where
  data : List T
  length : Nat
  capacity : Nat

variable {T : Type}

/-- `Default::default()` / `BloomSet::new()`: dangling pointer, both words zero. -/
def BloomSet.new : BloomSet T := ⟨[], 0, 0⟩

/-- `BloomSet::with_capacity(cap)`: buffer from `Vec::with_capacity(cap)`,
`length: 0`, and `capacity: cap` stored verbatim (the source does not mask it). -/
def BloomSet.withCapacity (cap : Nat) : BloomSet T := ⟨[], 0, cap⟩

/-- `len()`: `self.length & 0x0000_FFFF_FFFF_FFFF`. -/
def BloomSet.len (st : BloomSet T) : Nat := st.length &&& MASK48

/-- `capacity()`: `self.capacity & 0x0000_FFFF_FFFF_FFFF`.  (Named `capOf`
because the Lean field keeps the source field name `capacity`.) -/
def BloomSet.capOf (st : BloomSet T) : Nat := st.capacity &&& MASK48

/-- `is_empty()`: the source literally returns `self.len() != 0`. -/
def BloomSet.isEmpty (st : BloomSet T) : Bool := st.len != 0

/-- `as_slice()`: the first `len()` elements of the buffer. -/
def BloomSet.asSlice (st : BloomSet T) : List T := st.data.take st.len

/-- `bloom_contains(bloom)` for a `u32` mask `bloom`: test the mask against
the high 16 bits of the `length` word when `bloom > u16::MAX`, else against
the high 16 bits of the `capacity` word.  (The `as u16` casts in the source
are lossless: in the first branch `bloom >> 16 < 2 ^ 16` for a `u32`, in the
second `bloom ≤ 65535`.) -/
def BloomSet.bloomContains (st : BloomSet T) (bloom : Nat) : Bool :=
  if bloom > 65535 then
    decide (hi16 st.length &&& (bloom >>> 16) > 0)
  else
    decide (hi16 st.capacity &&& bloom > 0)

/-- `BloomHasher::write`: xor every byte into the 8-bit state. -/
def bloomHasherWrite (state : Nat) (bytes : List Nat) : Nat :=
  bytes.foldl (fun s b => s ^^^ b % 256) state

/-- `BloomHasher::finish`: `u64::from(state ^ (state >> 4))`. -/
def bloomHasherFinish (state : Nat) : Nat := state ^^^ (state >>> 4)

/-- Hash a byte string with `BloomHasher` starting from `state: 0`. -/
def bloomHash (bytes : List Nat) : Nat := bloomHasherFinish (bloomHasherWrite 0 bytes)

/-- The hash a `u8` element receives: `u8::hash` feeds its single byte to the
hasher. -/
def hashU8 (b : Nat) : Nat := bloomHash [b % 256]

/-- Amortized growth of `Vec::push` when full (std `RawVec`, outside this
repository): the new capacity is `max(2 * cap, required)`.  The spec allows
"standard amortized-doubling growth semantics"; std's additional small
minimum-capacity constant only changes the exact capacity value, which no
claim depends on. -/
def growCapacity (cap required : Nat) : Nat := max (2 * cap) required

/-- `insert_resizing(item)`: rebuild the `Vec` from `(ptr, len(), capacity())`,
`push` the item (growing the buffer since the call site has `len() == capacity()`),
then store `vec.capacity() & 0x0000_FFFF_FFFF_FFFF | (self.capacity & 0xFFFF_0000_0000_0000)`
back into the capacity word.  `self.length` is not touched here. -/
def BloomSet.insertResizing (st : BloomSet T) (item : T) : BloomSet T :=
  let vcap := if st.len < st.capOf then st.capOf else growCapacity st.capOf (st.len + 1)
  { data := st.data.take st.len ++ [item]
    length := st.length
    capacity := (vcap &&& MASK48) ||| (st.capacity &&& HIMASK) }

/-- `clear()`: the temporary `Vec` drops the elements, then
`self.capacity &= 0x0000_FFFF_FFFF_FFFF; self.length = 0;`. -/
def BloomSet.clear (st : BloomSet T) : BloomSet T :=
  { data := [], length := 0, capacity := st.capacity &&& MASK48 }

/-- The first half of `insert` (lib.rs 145-174): compute the bloom bit from
the hash, test it against the high 16 bits of the `length` word (bit index
at least 16) or the `capacity` word (bit index below 16); if it was clear,
set it by splicing the new chunk into bytes 6 and 7 of that word.  Returns
`(maybe_in_set, updated self)`. -/
def BloomSet.insertProbe (st : BloomSet T) (hashOf : T → Nat) (item : T) :
    Bool × BloomSet T :=
  let hash := hashOf item
  let bloomBit := 1 <<< (hash % 32)
  if bloomBit > 65535 then
    let bloomChunk := hi16 st.length
    if bloomChunk &&& (bloomBit >>> 16) > 0 then (true, st)
    else (false, { st with length := setHi16 st.length (bloomChunk ||| (bloomBit >>> 16)) })
  else
    let bloomChunk := hi16 st.capacity
    if bloomChunk &&& bloomBit > 0 then (true, st)
    else (false, { st with capacity := setHi16 st.capacity (bloomChunk ||| bloomBit) })

/-- The append path of `insert` (lib.rs 181-190): push through
`insert_resizing` when `len() == capacity()`, else write the item at offset
`len()` in place; then `self.length += 1` (wrapping `usize` addition). -/
def BloomSet.insertAppend (st : BloomSet T) (item : T) : BloomSet T :=
  let st2 := if st.len = st.capOf then st.insertResizing item
             else { st with data := st.data.take st.len ++ [item] }
  { st2 with length := (st2.length + 1) % 2 ^ 64 }

section EqOps

variable [DecidableEq T]

/-- `insert(item)`: probe (and record) the bloom bit; scan `as_slice()` for
an equal element only when the bit was already set; append when no equal
element was found. -/
def BloomSet.insert (st : BloomSet T) (hashOf : T → Nat) (item : T) : BloomSet T :=
  let p := st.insertProbe hashOf item
  let inSet := p.1 && p.2.asSlice.any (fun it => it == item)
  if inSet then p.2 else p.2.insertAppend item

/-- `contains(item)`: probe the bloom bit with `bloom_contains`; scan
`as_slice()` only on `maybe_in_set`, otherwise answer `false` directly. -/
def BloomSet.contains (st : BloomSet T) (hashOf : T → Nat) (item : T) : Bool :=
  let bloomBit := 1 <<< (hashOf item % 32)
  if st.bloomContains bloomBit then st.asSlice.any (fun it => it == item)
  else false

end EqOps

/-- The filter bit with index `k` (of 32), read from the current state: bits
16..31 live in the high 16 bits of the `length` word, bits 0..15 in the high
16 bits of the `capacity` word. -/
def hitIdx (st : BloomSet T) (k : Nat) : Bool :=
  if 16 ≤ k then (hi16 st.length).testBit (k - 16) else (hi16 st.capacity).testBit k

/-- Whether the filter bit derived from `x`'s hash is currently set:
`bloom_contains(1 << (hash % 32))`. -/
def bloomHit (hashOf : T → Nat) (x : T) (st : BloomSet T) : Bool :=
  st.bloomContains (1 <<< (hashOf x % 32))

/-- The data invariant maintained by every operation: `len()` counts exactly
the initialised prefix of the buffer, every stored element has its filter bit
set, stored elements are pairwise distinct, and both metadata words fit a
64-bit machine word. -/
structure InvA (hashOf : T → Nat) (st : BloomSet T) : Prop where
  lenData : st.len = st.data.length
  stored : ∀ x ∈ st.data, bloomHit hashOf x st = true
  nodup : st.data.Pairwise (fun a b => a ≠ b)
  lw : st.length < 2 ^ 64
  cw : st.capacity < 2 ^ 64

/-- Containers built through the public API.  `with_capacity` takes a `usize`
argument, hence below `2 ^ 64`.  Each `insert` carries the crate's standing
assumption (lib.rs module docs: x86-64 has 48 bits of address space, which is
why the high bits of the two words are free): the buffer, even after the
doubling reallocation of `insert`, stays addressable, so an insert only
happens while `len()` is below `2 ^ 47`. -/
inductive Reached [DecidableEq T] (hashOf : T → Nat) : BloomSet T → Prop where
  | new : Reached hashOf BloomSet.new
  | withCapacity (c : Nat) (hc : c < 2 ^ 64) : Reached hashOf (BloomSet.withCapacity c)
  | insert (st : BloomSet T) (x : T) (h : Reached hashOf st) (hlen : st.len < 2 ^ 47) :
      Reached hashOf (st.insert hashOf x)
  | clear (st : BloomSet T) (h : Reached hashOf st) : Reached hashOf st.clear

section WordLemmas

lemma mask48_eq : MASK48 = 2 ^ 48 - 1 := by decide

lemma and_mask48 (w : Nat) : w &&& MASK48 = w % 2 ^ 48 := by
  rw [mask48_eq]; exact Nat.and_pow_two_sub_one_eq_mod w 48

lemma and_himask (w : Nat) : w &&& HIMASK = 2 ^ 48 * (w / 2 ^ 48 % 65536) := by
  have h1 : HIMASK = 2 ^ 48 * (2 ^ 16 - 1) := by decide
  have h2 : (65536 : Nat) = 2 ^ 16 := by decide
  apply Nat.eq_of_testBit_eq
  intro i
  rw [Nat.testBit_and, h1, Nat.testBit_mul_pow_two, Nat.testBit_mul_pow_two, h2,
    Nat.testBit_mod_two_pow, ← Nat.shiftRight_eq_div_pow, Nat.testBit_shiftRight,
    Nat.testBit_two_pow_sub_one]
  rcases Nat.lt_or_ge i 48 with hi | hi
  · simp [Nat.not_le.mpr hi]
  · have h3 : 48 + (i - 48) = i := by omega
    simp [hi, h3, Bool.and_comm]

lemma or_low_high (a c : Nat) (ha : a < 2 ^ 48) : a ||| 2 ^ 48 * c = 2 ^ 48 * c + a := by
  apply Nat.eq_of_testBit_eq
  intro i
  rw [Nat.testBit_or, Nat.testBit_mul_pow_two, Nat.testBit_mul_pow_two_add c ha]
  rcases Nat.lt_or_ge i 48 with hi | hi
  · simp [hi, Nat.not_le.mpr hi]
  · have h3 : a.testBit i = false :=
      Nat.testBit_lt_two_pow (Nat.lt_of_lt_of_le ha (Nat.pow_le_pow_right (by omega) hi))
    simp [h3, hi, Nat.not_lt.mpr hi]

lemma resizeWord (a w : Nat) :
    (a &&& MASK48) ||| (w &&& HIMASK) = 2 ^ 48 * (w / 2 ^ 48 % 65536) + a % 2 ^ 48 := by
  rw [and_mask48, and_himask, or_low_high _ _ (Nat.mod_lt _ (by norm_num))]

lemma hi16_lt (w : Nat) : hi16 w < 65536 := Nat.mod_lt _ (by norm_num)

lemma setHi16_mask (w c : Nat) : setHi16 w c &&& MASK48 = w &&& MASK48 := by
  rw [and_mask48, and_mask48]; unfold setHi16; omega

lemma hi16_setHi16 (w c : Nat) (hc : c < 65536) : hi16 (setHi16 w c) = c := by
  unfold hi16 setHi16; omega

lemma setHi16_lt (w c : Nat) : setHi16 w c < 2 ^ 64 := by
  unfold setHi16
  have h1 : w % 2 ^ 48 < 2 ^ 48 := Nat.mod_lt _ (by norm_num)
  have h2 : c % 65536 < 65536 := Nat.mod_lt _ (by norm_num)
  omega

lemma one_shift_pow (k : Nat) : (1 <<< k) = 2 ^ k := Nat.one_shiftLeft k

lemma pow_gt_u16 (k : Nat) (hk : k < 32) : (2 ^ k > 65535) ↔ 16 ≤ k := by
  constructor
  · intro h
    by_contra hc
    have : 2 ^ k ≤ 2 ^ 15 := Nat.pow_le_pow_right (by omega) (by omega)
    omega
  · intro h
    have : 2 ^ 16 ≤ 2 ^ k := Nat.pow_le_pow_right (by omega) h
    omega

lemma pow_shiftRight16 (k : Nat) (hk : 16 ≤ k) : (2 ^ k) >>> 16 = 2 ^ (k - 16) := by
  rw [Nat.shiftRight_eq_div_pow, Nat.pow_div hk (by omega)]

lemma and_pow_pos (a j : Nat) : (a &&& 2 ^ j > 0) ↔ a.testBit j = true := by
  rw [Nat.and_two_pow]
  rcases h : a.testBit j
  · simp
  · simp [Nat.two_pow_pos]

end WordLemmas

section ProbeLemmas

lemma shift16_lt (k : Nat) (hk : k < 32) : (1 <<< k) >>> 16 < 65536 := by
  rw [one_shift_pow, Nat.shiftRight_eq_div_pow]
  have h1 : (2 : Nat) ^ k ≤ 2 ^ 31 := Nat.pow_le_pow_right (by omega) (by omega)
  have h2 : (2 : Nat) ^ 31 = 2147483648 := by norm_num
  have h3 : (2 : Nat) ^ 16 = 65536 := by norm_num
  omega

lemma probe_data (hashOf : T → Nat) (st : BloomSet T) (item : T) :
    (st.insertProbe hashOf item).2.data = st.data := by
  simp only [BloomSet.insertProbe]
  split <;> split <;> rfl

lemma probe_len (hashOf : T → Nat) (st : BloomSet T) (item : T) :
    (st.insertProbe hashOf item).2.len = st.len := by
  simp only [BloomSet.insertProbe]
  split <;> split <;> simp [BloomSet.len, setHi16_mask]

lemma probe_capOf (hashOf : T → Nat) (st : BloomSet T) (item : T) :
    (st.insertProbe hashOf item).2.capOf = st.capOf := by
  simp only [BloomSet.insertProbe]
  split <;> split <;> simp [BloomSet.capOf, setHi16_mask]

lemma probe_asSlice (hashOf : T → Nat) (st : BloomSet T) (item : T) :
    (st.insertProbe hashOf item).2.asSlice = st.asSlice := by
  unfold BloomSet.asSlice
  rw [probe_data, probe_len]

lemma probe_lw (hashOf : T → Nat) (st : BloomSet T) (item : T) (h : st.length < 2 ^ 64) :
    (st.insertProbe hashOf item).2.length < 2 ^ 64 := by
  simp only [BloomSet.insertProbe]
  split <;> split <;> first
  | exact h
  | exact setHi16_lt _ _

lemma probe_cw (hashOf : T → Nat) (st : BloomSet T) (item : T) (h : st.capacity < 2 ^ 64) :
    (st.insertProbe hashOf item).2.capacity < 2 ^ 64 := by
  simp only [BloomSet.insertProbe]
  split <;> split <;> first
  | exact h
  | exact setHi16_lt _ _

lemma probe_fst (hashOf : T → Nat) (st : BloomSet T) (item : T) :
    (st.insertProbe hashOf item).1 = bloomHit hashOf item st := by
  simp only [BloomSet.insertProbe, bloomHit, BloomSet.bloomContains]
  split <;> split <;> simp_all

lemma pow16_lt (j : Nat) (hj : j < 16) : (2 : Nat) ^ j < 65536 := by
  have h : (2 : Nat) ^ j ≤ 2 ^ 15 := Nat.pow_le_pow_right (by omega) (by omega)
  omega

lemma or16_lt (a b : Nat) (ha : a < 65536) (hb : b < 65536) : a ||| b < 65536 := by
  have h : (65536 : Nat) = 2 ^ 16 := by norm_num
  rw [h] at ha hb ⊢
  exact Nat.or_lt_two_pow ha hb

lemma bloomContains_pow (st : BloomSet T) (k : Nat) (hk : k < 32) :
    st.bloomContains (2 ^ k) = hitIdx st k := by
  unfold BloomSet.bloomContains hitIdx
  by_cases h16 : 16 ≤ k
  · rw [if_pos ((pow_gt_u16 k hk).mpr h16), if_pos h16, pow_shiftRight16 k h16]
    by_cases ht : (hi16 st.length).testBit (k - 16) = true <;> simp [and_pow_pos, ht]
  · rw [if_neg (fun hc => h16 ((pow_gt_u16 k hk).mp hc)), if_neg h16]
    by_cases ht : (hi16 st.capacity).testBit k = true <;> simp [and_pow_pos, ht]

lemma bloomHit_pow (hashOf : T → Nat) (x : T) (st : BloomSet T) :
    bloomHit hashOf x st = hitIdx st (hashOf x % 32) := by
  unfold bloomHit
  rw [one_shift_pow]
  exact bloomContains_pow st _ (Nat.mod_lt _ (by omega))

lemma insertProbe_eq (hashOf : T → Nat) (st : BloomSet T) (item : T) :
    st.insertProbe hashOf item =
      if 16 ≤ hashOf item % 32 then
        if (hi16 st.length).testBit (hashOf item % 32 - 16) = true then (true, st)
        else (false,
          { st with
            length := setHi16 st.length (hi16 st.length ||| 2 ^ (hashOf item % 32 - 16)) })
      else
        if (hi16 st.capacity).testBit (hashOf item % 32) = true then (true, st)
        else (false,
          { st with
            capacity := setHi16 st.capacity (hi16 st.capacity ||| 2 ^ (hashOf item % 32)) }) := by
  have hk : hashOf item % 32 < 32 := Nat.mod_lt _ (by omega)
  simp only [BloomSet.insertProbe, one_shift_pow]
  by_cases h16 : 16 ≤ hashOf item % 32
  · rw [if_pos ((pow_gt_u16 _ hk).mpr h16), if_pos h16, pow_shiftRight16 _ h16]
    by_cases ht : (hi16 st.length).testBit (hashOf item % 32 - 16) = true
    · rw [if_pos ((and_pow_pos _ _).mpr ht), if_pos ht]
    · rw [if_neg (fun hc => ht ((and_pow_pos _ _).mp hc)), if_neg ht]
  · rw [if_neg (fun hc => h16 ((pow_gt_u16 _ hk).mp hc)), if_neg h16]
    by_cases ht : (hi16 st.capacity).testBit (hashOf item % 32) = true
    · rw [if_pos ((and_pow_pos _ _).mpr ht), if_pos ht]
    · rw [if_neg (fun hc => ht ((and_pow_pos _ _).mp hc)), if_neg ht]

lemma probe_of_hit (hashOf : T → Nat) (st : BloomSet T) (item : T)
    (h : bloomHit hashOf item st = true) : st.insertProbe hashOf item = (true, st) := by
  rw [insertProbe_eq]
  rw [bloomHit_pow] at h
  unfold hitIdx at h
  by_cases h16 : 16 ≤ hashOf item % 32
  · rw [if_pos h16] at h ⊢
    rw [if_pos h]
  · rw [if_neg h16] at h ⊢
    rw [if_pos h]

lemma probe_hi16_len_mono (hashOf : T → Nat) (st : BloomSet T) (item : T) (i : Nat)
    (h : (hi16 st.length).testBit i = true) :
    (hi16 (st.insertProbe hashOf item).2.length).testBit i = true := by
  rw [insertProbe_eq]
  by_cases h16 : 16 ≤ hashOf item % 32
  · rw [if_pos h16]
    by_cases ht : (hi16 st.length).testBit (hashOf item % 32 - 16) = true
    · rw [if_pos ht]
      exact h
    · rw [if_neg ht]
      dsimp only
      rw [hi16_setHi16 _ _ (or16_lt _ _ (hi16_lt _) (pow16_lt _ (by omega)))]
      simp [h]
  · rw [if_neg h16]
    by_cases ht : (hi16 st.capacity).testBit (hashOf item % 32) = true
    · rw [if_pos ht]
      exact h
    · rw [if_neg ht]
      exact h

lemma probe_hi16_cap_mono (hashOf : T → Nat) (st : BloomSet T) (item : T) (i : Nat)
    (h : (hi16 st.capacity).testBit i = true) :
    (hi16 (st.insertProbe hashOf item).2.capacity).testBit i = true := by
  rw [insertProbe_eq]
  by_cases h16 : 16 ≤ hashOf item % 32
  · rw [if_pos h16]
    by_cases ht : (hi16 st.length).testBit (hashOf item % 32 - 16) = true
    · rw [if_pos ht]
      exact h
    · rw [if_neg ht]
      exact h
  · rw [if_neg h16]
    by_cases ht : (hi16 st.capacity).testBit (hashOf item % 32) = true
    · rw [if_pos ht]
      exact h
    · rw [if_neg ht]
      dsimp only
      rw [hi16_setHi16 _ _ (or16_lt _ _ (hi16_lt _) (pow16_lt _ (by omega)))]
      simp [h]

lemma probe_hit_self (hashOf : T → Nat) (st : BloomSet T) (item : T) :
    bloomHit hashOf item (st.insertProbe hashOf item).2 = true := by
  rw [insertProbe_eq, bloomHit_pow]
  by_cases h16 : 16 ≤ hashOf item % 32
  · rw [if_pos h16]
    by_cases ht : (hi16 st.length).testBit (hashOf item % 32 - 16) = true
    · rw [if_pos ht]
      unfold hitIdx
      rw [if_pos h16]
      exact ht
    · rw [if_neg ht]
      unfold hitIdx
      rw [if_pos h16]
      dsimp only
      rw [hi16_setHi16 _ _ (or16_lt _ _ (hi16_lt _) (pow16_lt _ (by omega)))]
      simp [Nat.testBit_two_pow_self]
  · rw [if_neg h16]
    by_cases ht : (hi16 st.capacity).testBit (hashOf item % 32) = true
    · rw [if_pos ht]
      unfold hitIdx
      rw [if_neg h16]
      exact ht
    · rw [if_neg ht]
      unfold hitIdx
      rw [if_neg h16]
      dsimp only
      rw [hi16_setHi16 _ _ (or16_lt _ _ (hi16_lt _) (pow16_lt _ (by omega)))]
      simp [Nat.testBit_two_pow_self]

lemma probe_hit_mono (hashOf : T → Nat) (st : BloomSet T) (item y : T)
    (h : bloomHit hashOf y st = true) :
    bloomHit hashOf y (st.insertProbe hashOf item).2 = true := by
  rw [bloomHit_pow] at h ⊢
  unfold hitIdx at h ⊢
  by_cases hy : 16 ≤ hashOf y % 32
  · rw [if_pos hy] at h ⊢
    exact probe_hi16_len_mono hashOf st item _ h
  · rw [if_neg hy] at h ⊢
    exact probe_hi16_cap_mono hashOf st item _ h

end ProbeLemmas

section AppendLemmas

lemma append_data (st : BloomSet T) (item : T) :
    (st.insertAppend item).data = st.data.take st.len ++ [item] := by
  simp only [BloomSet.insertAppend, BloomSet.insertResizing]
  split <;> rfl

lemma append_length_word (st : BloomSet T) (item : T) :
    (st.insertAppend item).length = (st.length + 1) % 2 ^ 64 := by
  simp only [BloomSet.insertAppend, BloomSet.insertResizing]
  split <;> rfl

lemma append_capacity_word (st : BloomSet T) (item : T) :
    (st.insertAppend item).capacity =
      if st.len = st.capOf
      then (growCapacity st.capOf (st.len + 1) &&& MASK48) ||| (st.capacity &&& HIMASK)
      else st.capacity := by
  simp only [BloomSet.insertAppend, BloomSet.insertResizing]
  split
  · rename_i hc
    rw [if_neg (show ¬st.len < st.capOf by omega)]
  · rfl

lemma append_len (st : BloomSet T) (item : T) (hlen : st.len < 2 ^ 48 - 1) :
    (st.insertAppend item).len = st.len + 1 := by
  unfold BloomSet.len at hlen ⊢
  rw [append_length_word]
  simp only [and_mask48] at hlen ⊢
  omega

lemma append_hi16_len (st : BloomSet T) (item : T) (hlen : st.len < 2 ^ 48 - 1) :
    hi16 (st.insertAppend item).length = hi16 st.length := by
  rw [append_length_word]
  unfold BloomSet.len at hlen
  rw [and_mask48] at hlen
  unfold hi16
  omega

lemma append_lw (st : BloomSet T) (item : T) : (st.insertAppend item).length < 2 ^ 64 := by
  rw [append_length_word]
  omega

lemma append_cw (st : BloomSet T) (item : T) (hcw : st.capacity < 2 ^ 64) :
    (st.insertAppend item).capacity < 2 ^ 64 := by
  rw [append_capacity_word]
  split
  · rw [resizeWord]
    have h1 : st.capacity / 2 ^ 48 % 65536 < 65536 := Nat.mod_lt _ (by norm_num)
    have h2 : growCapacity st.capOf (st.len + 1) % 2 ^ 48 < 2 ^ 48 := Nat.mod_lt _ (by norm_num)
    omega
  · exact hcw

lemma append_hi16_cap (st : BloomSet T) (item : T) :
    hi16 (st.insertAppend item).capacity = hi16 st.capacity := by
  rw [append_capacity_word]
  split
  · rw [resizeWord]
    unfold hi16
    have h2 : growCapacity st.capOf (st.len + 1) % 2 ^ 48 < 2 ^ 48 := Nat.mod_lt _ (by norm_num)
    omega
  · rfl

lemma append_capOf (st : BloomSet T) (item : T) :
    (st.insertAppend item).capOf =
      if st.len = st.capOf then growCapacity st.capOf (st.len + 1) &&& MASK48
      else st.capOf := by
  show (st.insertAppend item).capacity &&& MASK48 = _
  rw [append_capacity_word]
  split
  · rw [resizeWord]
    simp only [and_mask48]
    have h2 : growCapacity st.capOf (st.len + 1) % 2 ^ 48 < 2 ^ 48 := Nat.mod_lt _ (by norm_num)
    omega
  · rfl

lemma append_asSlice (st : BloomSet T) (item : T) (h1 : st.len = st.data.length)
    (hlen : st.len < 2 ^ 48 - 1) :
    (st.insertAppend item).asSlice = st.asSlice ++ [item] := by
  unfold BloomSet.asSlice
  rw [append_data, append_len st item hlen, h1, List.take_length]
  rw [show st.data.length + 1 = (st.data ++ [item]).length by simp, List.take_length]

end AppendLemmas

section InsertLemmas

variable {T : Type}

lemma hitIdx_congr (s1 s2 : BloomSet T) (k : Nat) (hl : hi16 s1.length = hi16 s2.length)
    (hc : hi16 s1.capacity = hi16 s2.capacity) : hitIdx s1 k = hitIdx s2 k := by
  unfold hitIdx
  rw [hl, hc]

lemma bloomHit_congr (hashOf : T → Nat) (y : T) (s1 s2 : BloomSet T)
    (hl : hi16 s1.length = hi16 s2.length) (hc : hi16 s1.capacity = hi16 s2.capacity) :
    bloomHit hashOf y s1 = bloomHit hashOf y s2 := by
  rw [bloomHit_pow, bloomHit_pow]
  exact hitIdx_congr s1 s2 _ hl hc

lemma invA_asSlice (hashOf : T → Nat) (st : BloomSet T) (hA : InvA hashOf st) :
    st.asSlice = st.data := by
  unfold BloomSet.asSlice
  rw [hA.lenData, List.take_length]

lemma hit_of_mem (hashOf : T → Nat) (st : BloomSet T) (item : T) (hA : InvA hashOf st)
    (hm : item ∈ st.asSlice) : bloomHit hashOf item st = true := by
  rw [invA_asSlice hashOf st hA] at hm
  exact hA.stored item hm

variable [DecidableEq T]

lemma any_eq_mem (l : List T) (x : T) :
    (l.any fun it => it == x) = decide (x ∈ l) := by
  induction l with
  | nil => simp
  | cons a l ih =>
    by_cases h : a = x
    · simp [h]
    · have h2 : ¬(x = a) := fun hx => h hx.symm
      simp [List.any_cons, ih, h, h2]

lemma insert_eq_of_mem (hashOf : T → Nat) (st : BloomSet T) (item : T)
    (hb : bloomHit hashOf item st = true) (hm : item ∈ st.asSlice) :
    st.insert hashOf item = st := by
  unfold BloomSet.insert
  rw [probe_of_hit hashOf st item hb]
  simp [any_eq_mem, hm]

lemma insert_eq_append_of_not_mem (hashOf : T → Nat) (st : BloomSet T) (item : T)
    (hnm : item ∉ st.asSlice) :
    st.insert hashOf item = (st.insertProbe hashOf item).2.insertAppend item := by
  unfold BloomSet.insert
  simp [any_eq_mem, probe_asSlice, hnm]

lemma insert_asSlice (hashOf : T → Nat) (st : BloomSet T) (item : T) (hA : InvA hashOf st)
    (hlen : st.len < 2 ^ 48 - 1) :
    (st.insert hashOf item).asSlice =
      if item ∈ st.asSlice then st.asSlice else st.asSlice ++ [item] := by
  by_cases hm : item ∈ st.asSlice
  · rw [if_pos hm, insert_eq_of_mem hashOf st item (hit_of_mem hashOf st item hA hm) hm]
  · rw [if_neg hm, insert_eq_append_of_not_mem hashOf st item hm]
    have h1 : (st.insertProbe hashOf item).2.len = (st.insertProbe hashOf item).2.data.length := by
      rw [probe_len, probe_data]
      exact hA.lenData
    have h2 : (st.insertProbe hashOf item).2.len < 2 ^ 48 - 1 := by
      rw [probe_len]
      exact hlen
    rw [append_asSlice _ item h1 h2, probe_asSlice]

lemma insert_len (hashOf : T → Nat) (st : BloomSet T) (item : T) (hA : InvA hashOf st)
    (hlen : st.len < 2 ^ 48 - 1) :
    (st.insert hashOf item).len = if item ∈ st.asSlice then st.len else st.len + 1 := by
  by_cases hm : item ∈ st.asSlice
  · rw [if_pos hm, insert_eq_of_mem hashOf st item (hit_of_mem hashOf st item hA hm) hm]
  · have h2 : (st.insertProbe hashOf item).2.len < 2 ^ 48 - 1 := by
      rw [probe_len]
      exact hlen
    rw [if_neg hm, insert_eq_append_of_not_mem hashOf st item hm, append_len _ item h2,
      probe_len]

lemma insert_data (hashOf : T → Nat) (st : BloomSet T) (item : T) (hA : InvA hashOf st) :
    (st.insert hashOf item).data =
      if item ∈ st.asSlice then st.data else st.data ++ [item] := by
  by_cases hm : item ∈ st.asSlice
  · rw [if_pos hm, insert_eq_of_mem hashOf st item (hit_of_mem hashOf st item hA hm) hm]
  · rw [if_neg hm, insert_eq_append_of_not_mem hashOf st item hm, append_data, probe_data,
      probe_len, hA.lenData, List.take_length]

lemma insert_hi16_len_mono (hashOf : T → Nat) (st : BloomSet T) (item : T)
    (hlen : st.len < 2 ^ 48 - 1) (i : Nat) (h : (hi16 st.length).testBit i = true) :
    (hi16 (st.insert hashOf item).length).testBit i = true := by
  simp only [BloomSet.insert]
  split
  · exact probe_hi16_len_mono hashOf st item i h
  · rw [append_hi16_len _ item (by rw [probe_len]; exact hlen)]
    exact probe_hi16_len_mono hashOf st item i h

lemma insert_hi16_cap_mono (hashOf : T → Nat) (st : BloomSet T) (item : T) (i : Nat)
    (h : (hi16 st.capacity).testBit i = true) :
    (hi16 (st.insert hashOf item).capacity).testBit i = true := by
  simp only [BloomSet.insert]
  split
  · exact probe_hi16_cap_mono hashOf st item i h
  · rw [append_hi16_cap]
    exact probe_hi16_cap_mono hashOf st item i h

lemma insert_hit_self (hashOf : T → Nat) (st : BloomSet T) (item : T)
    (hlen : st.len < 2 ^ 48 - 1) :
    bloomHit hashOf item (st.insert hashOf item) = true := by
  simp only [BloomSet.insert]
  split
  · exact probe_hit_self hashOf st item
  · rw [bloomHit_congr hashOf item _ _ (append_hi16_len _ item (by rw [probe_len]; exact hlen))
      (append_hi16_cap _ item)]
    exact probe_hit_self hashOf st item

lemma insert_hit_mono (hashOf : T → Nat) (st : BloomSet T) (item y : T)
    (hlen : st.len < 2 ^ 48 - 1) (h : bloomHit hashOf y st = true) :
    bloomHit hashOf y (st.insert hashOf item) = true := by
  simp only [BloomSet.insert]
  split
  · exact probe_hit_mono hashOf st item y h
  · rw [bloomHit_congr hashOf y _ _ (append_hi16_len _ item (by rw [probe_len]; exact hlen))
      (append_hi16_cap _ item)]
    exact probe_hit_mono hashOf st item y h

lemma insert_lw (hashOf : T → Nat) (st : BloomSet T) (item : T) (h : st.length < 2 ^ 64) :
    (st.insert hashOf item).length < 2 ^ 64 := by
  simp only [BloomSet.insert]
  split
  · exact probe_lw hashOf st item h
  · exact append_lw _ item

lemma insert_cw (hashOf : T → Nat) (st : BloomSet T) (item : T) (h : st.capacity < 2 ^ 64) :
    (st.insert hashOf item).capacity < 2 ^ 64 := by
  simp only [BloomSet.insert]
  split
  · exact probe_cw hashOf st item h
  · exact append_cw _ item (probe_cw hashOf st item h)

lemma insert_invA (hashOf : T → Nat) (st : BloomSet T) (item : T) (hA : InvA hashOf st)
    (hlen : st.len < 2 ^ 48 - 1) : InvA hashOf (st.insert hashOf item) := by
  refine ⟨?_, ?_, ?_, insert_lw hashOf st item hA.lw, insert_cw hashOf st item hA.cw⟩
  · rw [insert_len hashOf st item hA hlen, insert_data hashOf st item hA]
    by_cases hm : item ∈ st.asSlice
    · rw [if_pos hm, if_pos hm]
      exact hA.lenData
    · rw [if_neg hm, if_neg hm, List.length_append]
      simp [hA.lenData]
  · intro x hx
    rw [insert_data hashOf st item hA] at hx
    by_cases hm : item ∈ st.asSlice
    · rw [if_pos hm] at hx
      exact insert_hit_mono hashOf st item x hlen (hA.stored x hx)
    · rw [if_neg hm] at hx
      rcases List.mem_append.mp hx with hx1 | hx2
      · exact insert_hit_mono hashOf st item x hlen (hA.stored x hx1)
      · have hx3 : x = item := by simpa using hx2
        rw [hx3]
        exact insert_hit_self hashOf st item hlen
  · rw [insert_data hashOf st item hA]
    by_cases hm : item ∈ st.asSlice
    · rw [if_pos hm]
      exact hA.nodup
    · rw [if_neg hm]
      refine List.pairwise_append.mpr ⟨hA.nodup, by simp, ?_⟩
      intro a ha b hb
      have hb2 : b = item := by simpa using hb
      rw [hb2]
      intro hab
      rw [invA_asSlice hashOf st hA] at hm
      exact hm (hab ▸ ha)
  
lemma insert_lenCap (hashOf : T → Nat) (st : BloomSet T) (item : T) (hA : InvA hashOf st)
    (hcap : st.len ≤ st.capOf) (h47 : st.len < 2 ^ 47) :
    (st.insert hashOf item).len ≤ (st.insert hashOf item).capOf := by
  by_cases hm : item ∈ st.asSlice
  · rw [insert_eq_of_mem hashOf st item (hit_of_mem hashOf st item hA hm) hm]
    exact hcap
  · have hlen : st.len < 2 ^ 48 - 1 := by omega
    have h2 : (st.insertProbe hashOf item).2.len < 2 ^ 48 - 1 := by
      rw [probe_len]
      exact hlen
    rw [insert_eq_append_of_not_mem hashOf st item hm, append_len _ item h2, append_capOf]
    simp only [probe_len, probe_capOf]
    split
    · rename_i heq
      rw [and_mask48]
      have hlt : growCapacity st.capOf (st.len + 1) < 2 ^ 48 := by
        unfold growCapacity
        refine Nat.max_lt.mpr ⟨by omega, by omega⟩
      have hge : st.len + 1 ≤ growCapacity st.capOf (st.len + 1) := Nat.le_max_right _ _
      rw [Nat.mod_eq_of_lt hlt]
      omega
    · rename_i hne
      omega

end InsertLemmas

section StateLemmas

variable {T : Type}

lemma resizing_hi16_cap (st : BloomSet T) (x : T) :
    hi16 (st.insertResizing x).capacity = hi16 st.capacity := by
  simp only [BloomSet.insertResizing]
  rw [resizeWord]
  unfold hi16
  have h2 : (if st.len < st.capOf then st.capOf else growCapacity st.capOf (st.len + 1))
      % 2 ^ 48 < 2 ^ 48 := Nat.mod_lt _ (by norm_num)
  omega

lemma clear_len (st : BloomSet T) : st.clear.len = 0 := by
  simp [BloomSet.clear, BloomSet.len]

lemma clear_capOf (st : BloomSet T) : st.clear.capOf = st.capOf := by
  show st.capacity &&& MASK48 &&& MASK48 = st.capacity &&& MASK48
  simp only [and_mask48]
  omega

lemma clear_hi16_len (st : BloomSet T) : hi16 st.clear.length = 0 := by
  simp [BloomSet.clear, hi16]

lemma clear_hi16_cap (st : BloomSet T) : hi16 st.clear.capacity = 0 := by
  show hi16 (st.capacity &&& MASK48) = 0
  rw [and_mask48]
  unfold hi16
  omega

lemma invA_new (hashOf : T → Nat) : InvA hashOf (BloomSet.new : BloomSet T) := by
  refine ⟨?_, ?_, ?_, ?_, ?_⟩
  · simp [BloomSet.new, BloomSet.len]
  · intro x hx
    simp [BloomSet.new] at hx
  · simp [BloomSet.new]
  · show (0 : Nat) < 2 ^ 64
    positivity
  · show (0 : Nat) < 2 ^ 64
    positivity

lemma invA_withCapacity (hashOf : T → Nat) (c : Nat) (hc : c < 2 ^ 64) :
    InvA hashOf (BloomSet.withCapacity c : BloomSet T) := by
  refine ⟨?_, ?_, ?_, ?_, hc⟩
  · simp [BloomSet.withCapacity, BloomSet.len]
  · intro x hx
    simp [BloomSet.withCapacity] at hx
  · simp [BloomSet.withCapacity]
  · show (0 : Nat) < 2 ^ 64
    positivity

lemma invA_clear (hashOf : T → Nat) (st : BloomSet T) : InvA hashOf st.clear := by
  refine ⟨?_, ?_, ?_, ?_, ?_⟩
  · simp [BloomSet.clear, BloomSet.len]
  · intro x hx
    simp [BloomSet.clear] at hx
  · simp [BloomSet.clear]
  · show (0 : Nat) < 2 ^ 64
    positivity
  · show st.capacity &&& MASK48 < 2 ^ 64
    rw [and_mask48]
    omega

end StateLemmas

section ReachedLemmas

variable {T : Type} [DecidableEq T]

lemma contains_eq (hashOf : T → Nat) (st : BloomSet T) (q : T) :
    st.contains hashOf q =
      if bloomHit hashOf q st = true then decide (q ∈ st.asSlice) else false := by
  unfold BloomSet.contains bloomHit
  simp only [any_eq_mem]

lemma reached_inv (hashOf : T → Nat) (st : BloomSet T) (h : Reached hashOf st) :
    InvA hashOf st ∧ st.len ≤ st.capOf ∧ st.len ≤ 2 ^ 47 := by
  induction h with
  | new =>
    refine ⟨invA_new hashOf, ?_, ?_⟩ <;>
      simp [BloomSet.new, BloomSet.len, BloomSet.capOf]
  | withCapacity c hc =>
    refine ⟨invA_withCapacity hashOf c hc, ?_, ?_⟩ <;>
      simp [BloomSet.withCapacity, BloomSet.len, BloomSet.capOf]
  | insert st x h hlen ih =>
    obtain ⟨hA, hcap, h47⟩ := ih
    have hlen48 : st.len < 2 ^ 48 - 1 := by omega
    refine ⟨insert_invA hashOf st x hA hlen48, insert_lenCap hashOf st x hA hcap hlen, ?_⟩
    rw [insert_len hashOf st x hA hlen48]
    split
    · omega
    · omega
  | clear st h ih =>
    refine ⟨invA_clear hashOf st, ?_, ?_⟩ <;> rw [clear_len] <;> omega

end ReachedLemmas

section ClaimTheorems

variable {T : Type} [DecidableEq T]

/-- Claim C1: for every container built through the public API and every
query `q`, `contains(q)` returns true iff some stored element (an element of
`as_slice()`) equals `q`; moreover an `insert` never removes stored elements
— it leaves `as_slice()` unchanged or appends the new element at the end, so
elements already inserted stay present.  The bloom filter can only produce
false positives (extra scans), never a wrong answer. -/
theorem spec_C1 (hashOf : T → Nat) (st : BloomSet T) (h : Reached hashOf st) (q x : T) :
    (st.contains hashOf q = true ↔ q ∈ st.asSlice)
    ∧ ((st.insert hashOf x).asSlice = st.asSlice ∨
        (st.insert hashOf x).asSlice = st.asSlice ++ [x]) := by
  obtain ⟨hA, hcap, h47⟩ := reached_inv hashOf st h
  have hlen : st.len < 2 ^ 48 - 1 := by omega
  constructor
  · rw [contains_eq]
    by_cases hb : bloomHit hashOf q st = true
    · rw [if_pos hb]
      constructor
      · intro hc
        exact of_decide_eq_true hc
      · intro hm
        exact decide_eq_true hm
    · rw [if_neg hb]
      constructor
      · intro hc
        exact Bool.noConfusion hc
      · intro hm
        exact absurd (hit_of_mem hashOf st q hA hm) hb
  · rw [insert_asSlice hashOf st x hA hlen]
    by_cases hm : x ∈ st.asSlice
    · left
      rw [if_pos hm]
    · right
      rw [if_neg hm]

/-- Witness for C1 at a concrete reached container. -/
theorem spec_C1_witness :
    (((BloomSet.new : BloomSet Nat).insert hashU8 2).contains hashU8 2 = true ↔
        (2 : Nat) ∈ ((BloomSet.new : BloomSet Nat).insert hashU8 2).asSlice)
    ∧ ((((BloomSet.new : BloomSet Nat).insert hashU8 2).insert hashU8 4).asSlice =
          ((BloomSet.new : BloomSet Nat).insert hashU8 2).asSlice ∨
        (((BloomSet.new : BloomSet Nat).insert hashU8 2).insert hashU8 4).asSlice =
          ((BloomSet.new : BloomSet Nat).insert hashU8 2).asSlice ++ [4]) :=
  spec_C1 hashU8 ((BloomSet.new : BloomSet Nat).insert hashU8 2)
    (Reached.insert BloomSet.new 2 Reached.new (by decide)) 2 4

/-- Claim C2: the source of `is_empty()` is `self.len() != 0`, which is the
negation of what the name and the spec require: on the freshly created
container `len()` and `capacity()` are `0` as claimed, but `is_empty()`
returns `false`. -/
theorem spec_C2 :
    (BloomSet.new : BloomSet Nat).len = 0
    ∧ (BloomSet.new : BloomSet Nat).capOf = 0
    ∧ (BloomSet.new : BloomSet Nat).isEmpty = false := by
  decide

/-- Claim C3: re-inserting an element that was just inserted is a complete
no-op on the state (hence `len()` and `as_slice()` are unchanged); a single
insert either finds the element (slice unchanged) or appends it at the end
(first occurrences keep insertion order); stored elements are pairwise
distinct, so duplicates are never stored twice. -/
theorem spec_C3 (hashOf : T → Nat) (st : BloomSet T) (h : Reached hashOf st) (e : T) :
    ((st.insert hashOf e).insert hashOf e = st.insert hashOf e)
    ∧ ((st.insert hashOf e).insert hashOf e).len = (st.insert hashOf e).len
    ∧ ((st.insert hashOf e).insert hashOf e).asSlice = (st.insert hashOf e).asSlice
    ∧ ((st.insert hashOf e).asSlice =
        if e ∈ st.asSlice then st.asSlice else st.asSlice ++ [e])
    ∧ st.asSlice.Pairwise (fun a b => a ≠ b) := by
  obtain ⟨hA, hcap, h47⟩ := reached_inv hashOf st h
  have hlen : st.len < 2 ^ 48 - 1 := by omega
  have hb : bloomHit hashOf e (st.insert hashOf e) = true := insert_hit_self hashOf st e hlen
  have hm : e ∈ (st.insert hashOf e).asSlice := by
    rw [insert_asSlice hashOf st e hA hlen]
    by_cases hmem : e ∈ st.asSlice
    · rw [if_pos hmem]
      exact hmem
    · rw [if_neg hmem]
      exact List.mem_append.mpr (Or.inr (by simp))
  have heq : (st.insert hashOf e).insert hashOf e = st.insert hashOf e :=
    insert_eq_of_mem hashOf _ e hb hm
  refine ⟨heq, by rw [heq], by rw [heq], insert_asSlice hashOf st e hA hlen, ?_⟩
  rw [invA_asSlice hashOf st hA]
  exact hA.nodup

/-- Witness for C3 at a concrete reached container. -/
theorem spec_C3_witness :
    (((BloomSet.new : BloomSet Nat).insert hashU8 7).insert hashU8 7 =
        (BloomSet.new : BloomSet Nat).insert hashU8 7)
    ∧ (((BloomSet.new : BloomSet Nat).insert hashU8 7).insert hashU8 7).len =
        ((BloomSet.new : BloomSet Nat).insert hashU8 7).len
    ∧ (((BloomSet.new : BloomSet Nat).insert hashU8 7).insert hashU8 7).asSlice =
        ((BloomSet.new : BloomSet Nat).insert hashU8 7).asSlice
    ∧ (((BloomSet.new : BloomSet Nat).insert hashU8 7).asSlice =
        if (7 : Nat) ∈ (BloomSet.new : BloomSet Nat).asSlice then
          (BloomSet.new : BloomSet Nat).asSlice
        else (BloomSet.new : BloomSet Nat).asSlice ++ [7])
    ∧ (BloomSet.new : BloomSet Nat).asSlice.Pairwise (fun a b => a ≠ b) :=
  spec_C3 hashU8 BloomSet.new Reached.new 7

/-- Claim C4: `clear()` zeroes `len()` and both 16-bit filter fragments,
keeps `capacity()`, and after a clear a fresh re-insertion of any element
`e` makes `contains(e)` return true again. -/
theorem spec_C4 (hashOf : T → Nat) (st : BloomSet T) (e : T) :
    st.clear.len = 0
    ∧ hi16 st.clear.length = 0
    ∧ hi16 st.clear.capacity = 0
    ∧ st.clear.capOf = st.capOf
    ∧ (st.clear.insert hashOf e).contains hashOf e = true := by
  refine ⟨clear_len st, clear_hi16_len st, clear_hi16_cap st, clear_capOf st, ?_⟩
  have hA : InvA hashOf st.clear := invA_clear hashOf st
  have hlen : st.clear.len < 2 ^ 48 - 1 := by
    rw [clear_len]
    norm_num
  rw [contains_eq, if_pos (insert_hit_self hashOf st.clear e hlen)]
  have hm : e ∈ (st.clear.insert hashOf e).asSlice := by
    rw [insert_asSlice hashOf st.clear e hA hlen]
    by_cases hmem : e ∈ st.clear.asSlice
    · rw [if_pos hmem]
      exact hmem
    · rw [if_neg hmem]
      exact List.mem_append.mpr (Or.inr (by simp))
  exact decide_eq_true hm

/-- Claim C5: the filter is append-only.  On a reached container, any filter
bit set in the high 16 bits of the `length` word or of the `capacity` word is
still set after any further `insert`; and `insert_resizing` — the insert path
that reallocates and grows the buffer — preserves the capacity word's filter
fragment exactly. -/
theorem spec_C5 (hashOf : T → Nat) (st : BloomSet T) (h : Reached hashOf st) (x : T)
    (i : Nat) :
    ((hi16 st.length).testBit i = true →
      (hi16 (st.insert hashOf x).length).testBit i = true)
    ∧ ((hi16 st.capacity).testBit i = true →
      (hi16 (st.insert hashOf x).capacity).testBit i = true)
    ∧ hi16 (st.insertResizing x).capacity = hi16 st.capacity := by
  obtain ⟨hA, hcap, h47⟩ := reached_inv hashOf st h
  have hlen : st.len < 2 ^ 48 - 1 := by omega
  exact ⟨insert_hi16_len_mono hashOf st x hlen i, insert_hi16_cap_mono hashOf st x i,
    resizing_hi16_cap st x⟩

/-- Witness for C5: element 31 hashes to filter bit 30, stored as bit 14 of
the length word's fragment; it survives a further insert. -/
theorem spec_C5_witness :
    ((hi16 ((BloomSet.new : BloomSet Nat).insert hashU8 31).length).testBit 14 = true →
      (hi16 (((BloomSet.new : BloomSet Nat).insert hashU8 31).insert hashU8 3).length).testBit
        14 = true)
    ∧ ((hi16 ((BloomSet.new : BloomSet Nat).insert hashU8 31).capacity).testBit 14 = true →
      (hi16 (((BloomSet.new : BloomSet Nat).insert hashU8 31).insert hashU8 3).capacity).testBit
        14 = true)
    ∧ hi16 (((BloomSet.new : BloomSet Nat).insert hashU8 31).insertResizing 3).capacity =
        hi16 ((BloomSet.new : BloomSet Nat).insert hashU8 31).capacity :=
  spec_C5 hashU8 ((BloomSet.new : BloomSet Nat).insert hashU8 31)
    (Reached.insert BloomSet.new 31 Reached.new (by decide)) 3 14

/-- Claim C6: there is no CapacityExceeded check anywhere in the code.
`with_capacity(2^48)` returns normally with the word stored verbatim:
`capacity()` reports `0` and bit 0 of the capacity word's filter fragment is
silently set — silent corruption instead of the fatal failure the spec
demands. -/
theorem spec_C6 :
    (BloomSet.withCapacity (2 ^ 48) : BloomSet Nat).capacity = 2 ^ 48
    ∧ (BloomSet.withCapacity (2 ^ 48) : BloomSet Nat).capOf = 0
    ∧ hi16 (BloomSet.withCapacity (2 ^ 48) : BloomSet Nat).capacity = 1 := by
  refine ⟨rfl, ?_, ?_⟩ <;> decide

/-- Claim C7: on every container reached through any sequence of
new / with_capacity / insert / clear operations, `len() ≤ capacity()`. -/
theorem spec_C7 (hashOf : T → Nat) (st : BloomSet T) (h : Reached hashOf st) :
    st.len ≤ st.capOf :=
  (reached_inv hashOf st h).2.1

/-- Witness for C7 at a concrete reached container. -/
theorem spec_C7_witness :
    ((BloomSet.withCapacity 4 : BloomSet Nat).insert hashU8 2).len ≤
      ((BloomSet.withCapacity 4 : BloomSet Nat).insert hashU8 2).capOf :=
  spec_C7 hashU8 ((BloomSet.withCapacity 4 : BloomSet Nat).insert hashU8 2)
    (Reached.insert (BloomSet.withCapacity 4) 2 (Reached.withCapacity 4 (by decide))
      (by decide))

/-- Claim C8: the concrete scenario `with_capacity(4)`; insert 2, 4, 2, 31,
31 ends with `len() == 3` and `as_slice() == [2, 4, 31]`. -/
theorem spec_C8 :
    ((((((BloomSet.withCapacity 4 : BloomSet Nat).insert hashU8 2).insert hashU8 4).insert
          hashU8 2).insert hashU8 31).insert hashU8 31).len = 3
    ∧ ((((((BloomSet.withCapacity 4 : BloomSet Nat).insert hashU8 2).insert hashU8
          4).insert hashU8 2).insert hashU8 31).insert hashU8 31).asSlice = [2, 4, 31] := by
  decide

/-- Claim C10: immediately after `clear()` every query returns false:
both fragments are zero, so every probe answers definitely-absent and the
scan is never reached. -/
theorem spec_C10 (hashOf : T → Nat) (st : BloomSet T) (q : T) :
    st.clear.contains hashOf q = false := by
  rw [contains_eq]
  have hb : bloomHit hashOf q st.clear = false := by
    rw [bloomHit_pow]
    unfold hitIdx
    split
    · rw [clear_hi16_len]
      simp
    · rw [clear_hi16_cap]
      simp
  simp [hb]

end ClaimTheorems

end Bloomset
